import Mathlib

/-!
Shallow embedding of the approval-workflow core of the expense-tracker
repository (src/expenses/models.py, src/expenses/services.py,
src/expenses/views.py).

Conventions:
* Django `DecimalField` amounts are modelled as `ℚ` (exact decimal
  arithmetic); nullable fields as `Option`.
* Python truthiness of an optional Decimal (`if self.min_amount and ...`)
  is explicit: `none` and `some 0` are falsy.
* A Python `TypeError` (e.g. comparing `None` with a `Decimal`) is an
  `Except`-error; fallible operations return `Except`.
* Database rows are lists ordered by creation time; the
  `unique_together ['expense', 'approver']` key of `ExpenseApproval` makes
  `get_or_create` a lookup by approver within one expense's record list.
* Timestamps (`timezone.now()`) are passed in as an abstract `now : Nat`.
-/

namespace ExpenseApp

/-- `Expense.STATUS_CHOICES` (models.py). -/
inductive EStatus where
  | draft | pending | approved | rejected | cancelled
deriving DecidableEq

/-- `ExpenseApproval.STATUS_CHOICES` (models.py). -/
inductive AStatus where
  | pending | approved | rejected
deriving DecidableEq

/-- `ApprovalRule.RULE_TYPES` (models.py). -/
inductive RuleType where
  | percentage | specific | hybrid
deriving DecidableEq

/-- `ApprovalStep` (models.py): ordered approver slot of a rule.
Users are identified by `Nat` ids. -/
structure ApprovalStep where
  step_number : Nat
  approver : Nat
  is_required : Bool
deriving DecidableEq

/-- `ApprovalRule` (models.py), with its `steps` reverse relation inlined
(`rule.steps.all()`, ordered by `step_number`). -/
structure ApprovalRule where
  rule_type : RuleType
  percentage_threshold : Option Int
  specific_approver : Option Nat
  is_manager_approver : Bool
  min_amount : Option ℚ
  max_amount : Option ℚ
  is_active : Bool
  steps : List ApprovalStep
deriving DecidableEq

/-- `ExpenseApproval` (models.py): one approver's record on one expense.
The `expense` foreign key is implicit (records live inside the expense
state); `step` keeps the originating step's number. -/
structure ApprovalRecord where
  approver : Nat
  step : Option Nat
  status : AStatus
  comments : Option String
  approved_at : Option Nat
deriving DecidableEq

/-- `Notification` (models.py), reduced to recipient and type tag
(title/message free text elided; `expense` foreign key implicit). -/
structure NotificationMsg where
  user : Nat
  ntype : String
deriving DecidableEq

/-- Mutable state of one expense: its status/timestamps, its
`approvals` record set and the notifications emitted so far. -/
structure ExpenseState where
  status : EStatus
  approved_at : Option Nat
  submitted_at : Option Nat
  records : List ApprovalRecord
  notifications : List NotificationMsg
deriving DecidableEq

/-- Static per-expense environment: the company's configured rules
(`ApprovalRule.objects.filter(company=expense.company)`), the owner's
manager (`expense.user.manager`), the normalized amount
(`expense.amount_in_company_currency`, nullable) and the owner id. -/
structure Env where
  rules : List ApprovalRule
  manager : Option Nat
  amount : Option ℚ
  owner : Nat
deriving DecidableEq

/-- Python truthiness of an optional Decimal: `None` and `Decimal('0')`
are falsy, every other value truthy. -/
def pyTruthy : Option ℚ → Bool
  | none => false
  | some x => x != 0

/-- Second half of `ApprovalRule.applies_to_expense` (models.py:119-122):
`if self.max_amount and expense.amount_in_company_currency > self.max_amount:
return False` then `return True`. Comparing `None` with a Decimal raises
`TypeError`, modelled as `.error ()`. A zero bound is falsy and skipped. -/
def appliesMaxCheck (rule : ApprovalRule) (amount : Option ℚ) : Except Unit Bool :=
  match rule.max_amount with
  | some mx =>
    if mx ≠ 0 then
      match amount with
      | none => .error ()
      | some a => if mx < a then .ok false else .ok true
    else .ok true
  | none => .ok true

/-- `ApprovalRule.applies_to_expense` (models.py:111-122): inactive rules
never apply; then the min bound is checked (`if self.min_amount and
amount < self.min_amount: return False`) followed by the max bound.
Truthiness and `TypeError` as in `appliesMaxCheck`. -/
def applies_to_expense (rule : ApprovalRule) (amount : Option ℚ) : Except Unit Bool :=
  if rule.is_active = false then
    .ok false
  else
    match rule.min_amount with
    | some m =>
      if m ≠ 0 then
        match amount with
        | none => .error ()
        | some a => if a < m then .ok false else appliesMaxCheck rule amount
      else appliesMaxCheck rule amount
    | none => appliesMaxCheck rule amount

/-- The `for rule in rules: if rule.applies_to_expense(expense)` filter of
`ApprovalWorkflowService.get_applicable_rules` (services.py:139-144),
order-preserving, propagating the first `TypeError`. -/
def selectApplicable : List ApprovalRule → Option ℚ → Except Unit (List ApprovalRule)
  | [], _ => .ok []
  | r :: rs, amount =>
    match applies_to_expense r amount with
    | .error e => .error e
    | .ok true =>
      match selectApplicable rs amount with
      | .error e => .error e
      | .ok l => .ok (r :: l)
    | .ok false => selectApplicable rs amount

/-- `ApprovalWorkflowService.get_applicable_rules` (services.py:129-144):
the DB query keeps the company's rules with `is_active=True`, then each
rule's own `applies_to_expense` filters further. -/
def get_applicable_rules (rules : List ApprovalRule) (amount : Option ℚ) :
    Except Unit (List ApprovalRule) :=
  selectApplicable (rules.filter (fun r => r.is_active)) amount

/-- Result record of `CurrencyService.convert_currency` (services.py:32-67). -/
structure ConvResult where
  converted_amount : ℚ
  exchange_rate : ℚ
deriving DecidableEq

/-- Failure modes of `convert_currency`: the upstream being unreachable
(`requests.RequestException`) and the target currency missing from the
returned rate table (`ValueError`). -/
inductive ConvErr where
  | upstreamUnavailable | rateUnavailable
deriving DecidableEq

/-- `CurrencyService.convert_currency` (services.py:31-67). The external
ExchangeRate API is the oracle `rates : String → Option (List (String × ℚ))`
(`none` = network failure); the second component counts external HTTP
calls performed. The `from == to` fast path returns the amount with rate
`Decimal('1.0')` before any network access. -/
def convert_currency (amount : ℚ) (from_currency to_currency : String)
    (rates : String → Option (List (String × ℚ))) : Except ConvErr ConvResult × Nat :=
  if from_currency = to_currency then
    (.ok ⟨amount, 1⟩, 0)
  else
    match rates from_currency with
    | none => (.error .upstreamUnavailable, 1)
    | some table =>
      match table.lookup to_currency with
      | none => (.error .rateUnavailable, 1)
      | some r => (.ok ⟨amount * r, r⟩, 1)

/-- Does the expense already have an `ApprovalRecord` for `a`? This is the
`(expense, approver)` uniqueness key (`ExpenseApproval.Meta.unique_together`,
models.py:161-163) that `get_or_create` looks up. -/
def hasRecord (st : ExpenseState) (a : Nat) : Bool :=
  st.records.any (fun r => r.approver == a)

/-- The `ExpenseApproval.objects.get_or_create(expense=..., approver=...,
defaults=...)` idiom of `create_approval_workflow` (services.py:165-179,
183-197): create a pending record and an `approval_request` notification
only when no record for that approver exists yet. -/
def ensureRecord (a : Nat) (stp : Option Nat) (st : ExpenseState) : ExpenseState :=
  if hasRecord st a then st
  else
    { st with
      records := st.records ++ [⟨a, stp, .pending, none, none⟩],
      notifications := st.notifications ++ [⟨a, "approval_request"⟩] }

/-- The `for step in rule.steps.all()` loop of `create_approval_workflow`
(services.py:182-197). -/
def buildSteps : List ApprovalStep → ExpenseState → ExpenseState
  | [], st => st
  | stp :: rest, st => buildSteps rest (ensureRecord stp.approver (some stp.step_number) st)

/-- One iteration of the `for rule in rules` loop of
`create_approval_workflow` (services.py:162-197): the manager gate
(`if rule.is_manager_approver and expense.user.manager`, a missing manager
being falsy) and then the rule's steps. -/
def buildForRule (manager : Option Nat) (st : ExpenseState) (rule : ApprovalRule) :
    ExpenseState :=
  let st1 :=
    if rule.is_manager_approver then
      match manager with
      | some mg => ensureRecord mg none st
      | none => st
    else st
  buildSteps rule.steps st1

/-- The `for rule in rules` loop itself. -/
def buildRules (manager : Option Nat) : List ApprovalRule → ExpenseState → ExpenseState
  | [], st => st
  | r :: rest, st => buildRules manager rest (buildForRule manager st r)

/-- `ApprovalWorkflowService.create_approval_workflow` (services.py:146-197):
recompute the applicable rules; if none apply (`if not rules`), auto-approve
the expense and stamp `approved_at`; otherwise materialize the approval
records for every rule. -/
def create_approval_workflow (env : Env) (now : Nat) (st : ExpenseState) :
    Except Unit ExpenseState :=
  match get_applicable_rules env.rules env.amount with
  | .error e => .error e
  | .ok rules =>
    if rules.isEmpty then
      .ok { st with status := .approved, approved_at := some now }
    else
      .ok (buildRules env.manager rules st)

/-- `expense.approvals.filter(status='approved').count()` (services.py:234). -/
def approvedCnt (st : ExpenseState) : Nat :=
  (st.records.filter (fun r => r.status == .approved)).length

/-- One rule's test inside the `for rule in rules` loop of
`ApprovalWorkflowService.check_expense_status` (services.py:230-258):
`.ok true` means the branch would set `status='approved'` and return.
* `percentage`: with `total_approvers > 0`, compares
  `(approved_count / total_approvers) * 100 >= rule.percentage_threshold`
  (exact decimal arithmetic over `ℚ`); a missing threshold makes the
  Python comparison with `None` a `TypeError` (`.error ()`).
* `specific`: `expense.approvals.filter(approver=rule.specific_approver,
  status='approved').exists()`; a `None` designated approver matches no
  record.
* `hybrid`: the source branch is `pass` — never triggers. -/
def ruleTriggers (st : ExpenseState) (rule : ApprovalRule) : Except Unit Bool :=
  match rule.rule_type with
  | .percentage =>
    if 0 < st.records.length then
      match rule.percentage_threshold with
      | none => .error ()
      | some t =>
        .ok (decide ((t : ℚ) ≤ (approvedCnt st : ℚ) / (st.records.length : ℚ) * 100))
    else .ok false
  | .specific =>
    match rule.specific_approver with
    | none => .ok false
    | some a => .ok (st.records.any (fun r => r.approver == a && r.status == .approved))
  | .hybrid => .ok false

/-- Sequential evaluation of the rules in the `check_expense_status` loop:
stop at the first rule that triggers, propagate the first `TypeError`. -/
def firstTrigger (st : ExpenseState) : List ApprovalRule → Except Unit Bool
  | [] => .ok false
  | r :: rs =>
    match ruleTriggers st r with
    | .error e => .error e
    | .ok true => .ok true
    | .ok false => firstTrigger st rs

/-- `ApprovalWorkflowService.check_expense_status` (services.py:222-263):
recompute applicable rules; the first triggering rule sets
`status='approved'` and stamps `approved_at`; otherwise, if any record is
rejected, set `status='rejected'` (no terminal-status guard exists in the
source — the current expense status is never read). -/
def check_expense_status (env : Env) (now : Nat) (st : ExpenseState) :
    Except Unit ExpenseState :=
  match get_applicable_rules env.rules env.amount with
  | .error e => .error e
  | .ok rules =>
    match firstTrigger st rules with
    | .error e => .error e
    | .ok true => .ok { st with status := .approved, approved_at := some now }
    | .ok false =>
      if st.records.any (fun r => r.status == .rejected) then
        .ok { st with status := .rejected }
      else .ok st

/-- The decision value the `ExpenseApprovalActionSerializer` admits
(serializers.py:129-131): `status ∈ {'approved', 'rejected'}`. -/
inductive Decision where
  | approved | rejected
deriving DecidableEq

/-- The record status a decision writes. -/
def Decision.toAStatus : Decision → AStatus
  | .approved => .approved
  | .rejected => .rejected

/-- The `f'expense_{status}'` notification type (services.py:213). -/
def Decision.notifType : Decision → String
  | .approved => "expense_approved"
  | .rejected => "expense_rejected"

/-- First half of `ApprovalWorkflowService.process_approval`
(services.py:205-217): write the decision into the approver's record
(status, comments, decision timestamp `approved_at`) and append the
`f'expense_{status}'` notification to the expense owner. -/
def decidedState (env : Env) (now : Nat) (approver : Nat) (d : Decision)
    (comments : Option String) (st : ExpenseState) : ExpenseState :=
  { st with
    records := st.records.map (fun r =>
      if r.approver == approver then
        { r with status := d.toAStatus, comments := comments, approved_at := some now }
      else r),
    notifications := st.notifications ++ [⟨env.owner, d.notifType⟩] }

/-- `ApprovalWorkflowService.process_approval` (services.py:199-220): set
the record's status/comments/decision timestamp and save, notify the
expense owner, then run `check_expense_status`. Django autocommit: the
record fields and the notification persist even when the subsequent
status check raises, so the state is threaded alongside the error. -/
def process_approval (env : Env) (now : Nat) (approver : Nat) (d : Decision)
    (comments : Option String) (st : ExpenseState) : Except Unit Unit × ExpenseState :=
  let st1 := decidedState env now approver d comments st
  match check_expense_status env now st1 with
  | .error e => (.error e, st1)
  | .ok st2 => (.ok (), st2)

/-- Failure modes of the approve endpoint. -/
inductive DecideErr where
  | notFound | invalidState | typeErr
deriving DecidableEq

/-- `ExpenseApprovalViewSet.approve` (views.py:168-189), the only caller of
`process_approval`: look up the approver's record, refuse with
`invalidState` (HTTP 400, record untouched) unless it is pending, then
process the decision. -/
def approve_action (env : Env) (now : Nat) (approver : Nat) (d : Decision)
    (comments : Option String) (st : ExpenseState) : Except DecideErr Unit × ExpenseState :=
  match st.records.find? (fun r => r.approver == approver) with
  | none => (.error .notFound, st)
  | some rec =>
    if rec.status == .pending then
      match process_approval env now approver d comments st with
      | (.ok u, st2) => (.ok u, st2)
      | (.error _, st2) => (.error .typeErr, st2)
    else (.error .invalidState, st)

/-- `ExpenseViewSet.perform_create` (views.py:51-64): the serializer saves
a new expense with the model default `status='draft'` (models.py:52,
`ExpenseCreateSerializer` sets no status), then the approval workflow is
built immediately, then an `expense_submitted` notification is emitted. -/
def perform_create (env : Env) (now : Nat) : Except Unit ExpenseState :=
  match create_approval_workflow env now
      ⟨.draft, none, none, [], []⟩ with
  | .error e => .error e
  | .ok st =>
    .ok { st with notifications := st.notifications ++ [⟨env.owner, "expense_submitted"⟩] }

/-- `ExpenseViewSet.submit` (views.py:66-84): only a draft expense can be
submitted; it becomes pending, `submitted_at` is stamped, then the
approval workflow is built. -/
def submit_action (env : Env) (now : Nat) (st : ExpenseState) : Except Unit ExpenseState :=
  if st.status == .draft then
    create_approval_workflow env now { st with status := .pending, submitted_at := some now }
  else .error ()

/-- `ExpenseViewSet.cancel` (views.py:86-100): only a draft or pending
expense can be cancelled. -/
def cancel_action (st : ExpenseState) : Except Unit ExpenseState :=
  if st.status == .draft || st.status == .pending then
    .ok { st with status := .cancelled }
  else .error ()

/-- Failure modes of the frontend approval route. -/
inductive FrontendErr where
  | notFound | invalidAction | typeErr
deriving DecidableEq

/-- `approve_expense` (frontend_views.py:259-284), the second caller of
`process_approval`: `get_object_or_404` fetches the approver's record
with NO status filter, and the POST `action` string dispatches straight
into `process_approval` — this route has no pending guard at all (only
the REST endpoint `ExpenseApprovalViewSet.approve` checks the record's
status). Any raised error is caught and shown as a message with the
already-committed writes kept, so the state is threaded alongside the
error. -/
def approve_expense (env : Env) (now : Nat) (approver : Nat) (action : String)
    (comments : Option String) (st : ExpenseState) :
    Except FrontendErr Unit × ExpenseState :=
  match st.records.find? (fun r => r.approver == approver) with
  | none => (.error .notFound, st)
  | some _ =>
    if action = "approve" then
      match process_approval env now approver .approved comments st with
      | (.ok u, st2) => (.ok u, st2)
      | (.error _, st2) => (.error .typeErr, st2)
    else if action = "reject" then
      match process_approval env now approver .rejected comments st with
      | (.ok u, st2) => (.ok u, st2)
      | (.error _, st2) => (.error .typeErr, st2)
    else (.error .invalidAction, st)

instance {ε α : Type} [DecidableEq ε] [DecidableEq α] : DecidableEq (Except ε α) := fun x y =>
  match x, y with
  | .ok a, .ok b => if h : a = b then .isTrue (by rw [h]) else .isFalse (by simp [h])
  | .error a, .error b => if h : a = b then .isTrue (by rw [h]) else .isFalse (by simp [h])
  | .ok _, .error _ => .isFalse (by simp)
  | .error _, .ok _ => .isFalse (by simp)

/-! Structural lemmas about chain construction (`create_approval_workflow`). -/

theorem hasRecord_ensureRecord_self (a : Nat) (stp : Option Nat) (st : ExpenseState) :
    hasRecord (ensureRecord a stp st) a = true := by
  unfold ensureRecord
  split
  · assumption
  · simp [hasRecord, List.any_append]

theorem hasRecord_ensureRecord_mono (a : Nat) (stp : Option Nat) (st : ExpenseState)
    (b : Nat) (h : hasRecord st b = true) :
    hasRecord (ensureRecord a stp st) b = true := by
  unfold ensureRecord
  split
  · exact h
  · simp only [hasRecord, List.any_append] at *
    simp [h]

theorem ensureRecord_of_hasRecord (a : Nat) (stp : Option Nat) (st : ExpenseState)
    (h : hasRecord st a = true) : ensureRecord a stp st = st := by
  unfold ensureRecord
  simp [h]

theorem ensureRecord_status (a : Nat) (stp : Option Nat) (st : ExpenseState) :
    (ensureRecord a stp st).status = st.status := by
  unfold ensureRecord
  split <;> rfl

theorem buildSteps_hasRecord_mono (steps : List ApprovalStep) (st : ExpenseState)
    (b : Nat) (h : hasRecord st b = true) :
    hasRecord (buildSteps steps st) b = true := by
  induction steps generalizing st with
  | nil => exact h
  | cons s rest ih => exact ih _ (hasRecord_ensureRecord_mono _ _ _ _ h)

theorem buildSteps_status (steps : List ApprovalStep) (st : ExpenseState) :
    (buildSteps steps st).status = st.status := by
  induction steps generalizing st with
  | nil => rfl
  | cons s rest ih => rw [buildSteps, ih, ensureRecord_status]

theorem buildSteps_covers (steps : List ApprovalStep) (st : ExpenseState) :
    ∀ s ∈ steps, hasRecord (buildSteps steps st) s.approver = true := by
  induction steps generalizing st with
  | nil => intro s hs; cases hs
  | cons s0 rest ih =>
    intro s hs
    rcases List.mem_cons.mp hs with h | h
    · subst h
      simp only [buildSteps]
      exact buildSteps_hasRecord_mono _ _ _ (hasRecord_ensureRecord_self _ _ _)
    · exact ih _ s h

theorem buildSteps_of_covered (steps : List ApprovalStep) (st : ExpenseState)
    (h : ∀ s ∈ steps, hasRecord st s.approver = true) :
    buildSteps steps st = st := by
  induction steps with
  | nil => rfl
  | cons s0 rest ih =>
    rw [buildSteps, ensureRecord_of_hasRecord _ _ _ (h s0 (List.mem_cons_self _ _))]
    exact ih fun s hs => h s (List.mem_cons_of_mem _ hs)

/-- The approvers `create_approval_workflow` materializes records for under
one rule: the owner's manager when the rule requires it, then the rule's
step approvers. -/
def ruleTargets (manager : Option Nat) (rule : ApprovalRule) : List Nat :=
  (if rule.is_manager_approver then manager.toList else []) ++
    rule.steps.map (fun s => s.approver)

theorem buildForRule_hasRecord_mono (m : Option Nat) (st : ExpenseState)
    (rule : ApprovalRule) (b : Nat) (h : hasRecord st b = true) :
    hasRecord (buildForRule m st rule) b = true := by
  unfold buildForRule
  refine buildSteps_hasRecord_mono _ _ _ ?_
  split
  · cases m with
    | none => exact h
    | some mg => exact hasRecord_ensureRecord_mono _ _ _ _ h
  · exact h

theorem buildForRule_status (m : Option Nat) (st : ExpenseState) (rule : ApprovalRule) :
    (buildForRule m st rule).status = st.status := by
  unfold buildForRule
  rw [buildSteps_status]
  split
  · cases m with
    | none => rfl
    | some mg => exact ensureRecord_status _ _ _
  · rfl

theorem buildForRule_covers (m : Option Nat) (st : ExpenseState) (rule : ApprovalRule) :
    ∀ a ∈ ruleTargets m rule, hasRecord (buildForRule m st rule) a = true := by
  intro a ha
  rcases List.mem_append.mp ha with h | h
  · unfold buildForRule
    refine buildSteps_hasRecord_mono _ _ _ ?_
    by_cases hm : rule.is_manager_approver
    · simp only [hm, if_true] at h ⊢
      cases m with
      | none => cases h
      | some mg =>
        rcases List.mem_singleton.mp (by simpa [Option.toList] using h) with h
        subst h
        exact hasRecord_ensureRecord_self _ _ _
    · simp [hm] at h
  · rcases List.mem_map.mp h with ⟨s, hs, rfl⟩
    exact buildSteps_covers _ _ s hs

theorem buildForRule_of_covered (m : Option Nat) (st : ExpenseState) (rule : ApprovalRule)
    (h : ∀ a ∈ ruleTargets m rule, hasRecord st a = true) :
    buildForRule m st rule = st := by
  unfold buildForRule
  have hsteps : ∀ s ∈ rule.steps, hasRecord st s.approver = true := fun s hs =>
    h _ (List.mem_append.mpr (Or.inr (List.mem_map.mpr ⟨s, hs, rfl⟩)))
  by_cases hm : rule.is_manager_approver
  · simp only [hm, if_true]
    cases m with
    | none => exact buildSteps_of_covered _ _ hsteps
    | some mg =>
      show buildSteps rule.steps (ensureRecord mg none st) = st
      rw [ensureRecord_of_hasRecord _ _ _ (h mg (by simp [ruleTargets, hm, Option.toList]))]
      exact buildSteps_of_covered _ _ hsteps
  · simp only [hm, if_false]
    exact buildSteps_of_covered _ _ hsteps

theorem buildRules_hasRecord_mono (m : Option Nat) (rules : List ApprovalRule)
    (st : ExpenseState) (b : Nat) (h : hasRecord st b = true) :
    hasRecord (buildRules m rules st) b = true := by
  induction rules generalizing st with
  | nil => exact h
  | cons r rest ih => exact ih _ (buildForRule_hasRecord_mono _ _ _ _ h)

theorem buildRules_status (m : Option Nat) (rules : List ApprovalRule) (st : ExpenseState) :
    (buildRules m rules st).status = st.status := by
  induction rules generalizing st with
  | nil => rfl
  | cons r rest ih => rw [buildRules, ih, buildForRule_status]

theorem buildRules_covers (m : Option Nat) (rules : List ApprovalRule) (st : ExpenseState) :
    ∀ r ∈ rules, ∀ a ∈ ruleTargets m r, hasRecord (buildRules m rules st) a = true := by
  induction rules generalizing st with
  | nil => intro r hr; cases hr
  | cons r0 rest ih =>
    intro r hr a ha
    rcases List.mem_cons.mp hr with h | h
    · subst h
      simp only [buildRules]
      exact buildRules_hasRecord_mono _ _ _ _ (buildForRule_covers _ _ _ _ ha)
    · exact ih _ r h a ha

theorem buildRules_of_covered (m : Option Nat) (rules : List ApprovalRule) (st : ExpenseState)
    (h : ∀ r ∈ rules, ∀ a ∈ ruleTargets m r, hasRecord st a = true) :
    buildRules m rules st = st := by
  induction rules with
  | nil => rfl
  | cons r0 rest ih =>
    rw [buildRules, buildForRule_of_covered _ _ _ (h r0 (List.mem_cons_self _ _))]
    exact ih fun r hr => h r (List.mem_cons_of_mem _ hr)

theorem buildRules_fix (m : Option Nat) (rules : List ApprovalRule) (st : ExpenseState) :
    buildRules m rules (buildRules m rules st) = buildRules m rules st :=
  buildRules_of_covered _ _ _ (buildRules_covers _ _ _)

/-! Lemmas about rule selection and status resolution. -/

theorem appliesMaxCheck_some_isOk (rule : ApprovalRule) (a : ℚ) :
    ∃ b, appliesMaxCheck rule (some a) = .ok b := by
  rcases hmx : rule.max_amount with _ | mx
  · exact ⟨true, by simp [appliesMaxCheck, hmx]⟩
  · by_cases h0 : mx ≠ 0
    · by_cases hlt : mx < a
      · exact ⟨false, by simp [appliesMaxCheck, hmx, h0, hlt]⟩
      · exact ⟨true, by simp [appliesMaxCheck, hmx, h0, hlt]⟩
    · exact ⟨true, by simp [appliesMaxCheck, hmx, h0]⟩

theorem applies_to_expense_some_isOk (rule : ApprovalRule) (a : ℚ) :
    ∃ b, applies_to_expense rule (some a) = .ok b := by
  obtain ⟨bm, hbm⟩ := appliesMaxCheck_some_isOk rule a
  by_cases hact : rule.is_active = false
  · exact ⟨false, by simp [applies_to_expense, hact]⟩
  · rcases hmn : rule.min_amount with _ | m
    · exact ⟨bm, by simp [applies_to_expense, hact, hmn, hbm]⟩
    · by_cases h0 : m ≠ 0
      · by_cases hlt : a < m
        · exact ⟨false, by simp [applies_to_expense, hact, hmn, h0, hlt]⟩
        · exact ⟨bm, by simp [applies_to_expense, hact, hmn, h0, hlt, hbm]⟩
      · exact ⟨bm, by simp [applies_to_expense, hact, hmn, h0, hbm]⟩

theorem selectApplicable_some_isOk (rules : List ApprovalRule) (a : ℚ) :
    ∃ l, selectApplicable rules (some a) = .ok l := by
  induction rules with
  | nil => exact ⟨[], rfl⟩
  | cons r rest ih =>
    obtain ⟨b, hb⟩ := applies_to_expense_some_isOk r a
    obtain ⟨l, hl⟩ := ih
    cases b with
    | true => exact ⟨r :: l, by simp [selectApplicable, hb, hl]⟩
    | false => exact ⟨l, by simp [selectApplicable, hb, hl]⟩

theorem selectApplicable_mem (rules : List ApprovalRule) (amount : Option ℚ)
    (l : List ApprovalRule) (h : selectApplicable rules amount = .ok l) :
    ∀ r ∈ l, r ∈ rules := by
  induction rules generalizing l with
  | nil =>
    simp only [selectApplicable] at h
    cases h
    intro r hr; cases hr
  | cons r0 rest ih =>
    intro r hr
    simp only [selectApplicable] at h
    rcases hap : applies_to_expense r0 amount with e | b
    · rw [hap] at h; cases h
    · rw [hap] at h
      cases b with
      | true =>
        rcases hsel : selectApplicable rest amount with e | l2
        · rw [hsel] at h; cases h
        · rw [hsel] at h
          cases h
          rcases List.mem_cons.mp hr with h | h
          · exact List.mem_cons.mpr (Or.inl h)
          · exact List.mem_cons.mpr (Or.inr (ih _ hsel r h))
      | false => exact List.mem_cons.mpr (Or.inr (ih _ h r hr))

theorem get_applicable_rules_some_isOk (rules : List ApprovalRule) (a : ℚ) :
    ∃ l, get_applicable_rules rules (some a) = .ok l :=
  selectApplicable_some_isOk _ a

theorem get_applicable_rules_mem (rules : List ApprovalRule) (amount : Option ℚ)
    (l : List ApprovalRule) (h : get_applicable_rules rules amount = .ok l) :
    ∀ r ∈ l, r ∈ rules := by
  intro r hr
  exact List.mem_of_mem_filter (selectApplicable_mem _ _ _ h r hr)

/-- Well-formed configuration, guaranteed outside the engine by the spec:
normalization has set the company-currency amount before rule evaluation
(spec §3), and a percentage rule always carries a threshold (spec §7
rejects such rules at save time). -/
def WFEnv (env : Env) : Prop :=
  (∃ a, env.amount = some a) ∧
  ∀ r ∈ env.rules, r.rule_type = .percentage → r.percentage_threshold ≠ none

theorem ruleTriggers_isOk (st : ExpenseState) (rule : ApprovalRule)
    (h : rule.rule_type = .percentage → rule.percentage_threshold ≠ none) :
    ∃ b, ruleTriggers st rule = .ok b := by
  rcases hrt : rule.rule_type with _ | _ | _
  · by_cases hlen : 0 < st.records.length
    · rcases ht : rule.percentage_threshold with _ | t
      · exact absurd ht (h hrt)
      · exact ⟨decide ((t : ℚ) ≤ (approvedCnt st : ℚ) / (st.records.length : ℚ) * 100),
          by simp [ruleTriggers, hrt, hlen, ht]⟩
    · exact ⟨false, by simp [ruleTriggers, hrt, hlen]⟩
  · rcases ha : rule.specific_approver with _ | a2
    · exact ⟨false, by simp [ruleTriggers, hrt, ha]⟩
    · exact ⟨st.records.any (fun r => r.approver == a2 && r.status == .approved),
        by simp [ruleTriggers, hrt, ha]⟩
  · exact ⟨false, by simp [ruleTriggers, hrt]⟩

theorem firstTrigger_isOk (st : ExpenseState) (rs : List ApprovalRule)
    (h : ∀ r ∈ rs, r.rule_type = .percentage → r.percentage_threshold ≠ none) :
    ∃ b, firstTrigger st rs = .ok b := by
  induction rs with
  | nil => exact ⟨false, rfl⟩
  | cons r rest ih =>
    obtain ⟨b, hb⟩ := ruleTriggers_isOk st r (h r (List.mem_cons_self _ _))
    obtain ⟨b2, hb2⟩ := ih fun r2 h2 => h r2 (List.mem_cons_of_mem _ h2)
    cases b with
    | true => exact ⟨true, by simp [firstTrigger, hb]⟩
    | false => exact ⟨b2, by simp [firstTrigger, hb, hb2]⟩

/-- Explicit branch form of `check_expense_status` once the applicable
rules and the loop outcome are known. -/
theorem check_expense_status_spec (env : Env) (now : Nat) (st : ExpenseState)
    (l : List ApprovalRule) (hl : get_applicable_rules env.rules env.amount = .ok l)
    (b : Bool) (hb : firstTrigger st l = .ok b) :
    check_expense_status env now st =
      (if b then .ok { st with status := .approved, approved_at := some now }
       else if st.records.any (fun r => r.status == .rejected) then
         .ok { st with status := .rejected }
       else .ok st) := by
  unfold check_expense_status
  split
  · rename_i e heq
    rw [hl] at heq
    cases heq
  · rename_i rules heq
    rw [hl] at heq
    injection heq with heq
    subst heq
    rw [hb]
    cases b
    · rfl
    · rfl

theorem check_expense_status_isOk (env : Env) (now : Nat) (st : ExpenseState)
    (hwf : WFEnv env) :
    ∃ st2, check_expense_status env now st = .ok st2 ∧
      st2.records = st.records ∧ st2.notifications = st.notifications := by
  obtain ⟨⟨a, ha⟩, hth⟩ := hwf
  obtain ⟨l, hl0⟩ := get_applicable_rules_some_isOk env.rules a
  have hl : get_applicable_rules env.rules env.amount = .ok l := by rw [ha]; exact hl0
  obtain ⟨b, hb⟩ := firstTrigger_isOk st l fun r hr =>
    hth r (get_applicable_rules_mem _ _ _ hl r hr)
  rw [check_expense_status_spec env now st l hl b hb]
  cases b with
  | true => exact ⟨_, if_pos rfl, rfl, rfl⟩
  | false =>
    rw [if_neg Bool.false_ne_true]
    by_cases hrej : (st.records.any fun r => r.status == AStatus.rejected) = true
    · exact ⟨_, if_pos hrej, rfl, rfl⟩
    · exact ⟨_, if_neg hrej, rfl, rfl⟩

/-! Spec-side predicates (refinement targets), modelled from the spec's
words, to compare against the source functions. -/

/-- Modelled from the spec: "a rule applies to an expense iff active AND
(no min bound or normalized amount ≥ min) AND (no max bound or normalized
amount ≤ max)" — a present bound always constrains. -/
def specAppliesToExpense (rule : ApprovalRule) (amt : ℚ) : Bool :=
  rule.is_active &&
    (match rule.min_amount with
     | none => true
     | some m => decide (m ≤ amt)) &&
    (match rule.max_amount with
     | none => true
     | some mx => decide (amt ≤ mx))

/-- The applicability predicate amended to what the source computes: a
present-but-zero bound is falsy in Python and therefore skipped, i.e.
treated exactly like an absent bound. -/
def specAppliesAmended (rule : ApprovalRule) (amt : ℚ) : Bool :=
  rule.is_active &&
    (match rule.min_amount with
     | none => true
     | some m => (m == 0) || decide (m ≤ amt)) &&
    (match rule.max_amount with
     | none => true
     | some mx => (mx == 0) || decide (amt ≤ mx))

/-- An active rule whose max bound is present but zero: the spec predicate
rejects any positive amount, the code skips the falsy bound. -/
def c3rule : ApprovalRule := ⟨.percentage, some 50, none, false, none, some 0, true, []⟩

/-- C3 (counterexample): the claimed iff fails on a present-but-zero max
bound — `applies_to_expense` accepts an amount of 100 although the spec
predicate (amount ≤ 0) rejects it, because `Decimal('0')` is falsy in
`if self.max_amount and ...` (models.py:119). -/
theorem c3_zero_bound_cex :
    applies_to_expense c3rule (some 100) = .ok true ∧
      specAppliesToExpense c3rule 100 = false := by
  constructor
  · rfl
  · decide

theorem appliesMaxCheck_some_eq (rule : ApprovalRule) (amt : ℚ) :
    appliesMaxCheck rule (some amt) =
      .ok (match rule.max_amount with
           | none => true
           | some mx => (mx == 0) || decide (amt ≤ mx)) := by
  rcases hmx : rule.max_amount with _ | mx
  · simp [appliesMaxCheck, hmx]
  · by_cases h0 : mx = 0
    · simp [appliesMaxCheck, hmx, h0]
    · by_cases hlt : mx < amt
      · simp [appliesMaxCheck, hmx, h0, hlt,
          show decide (amt ≤ mx) = false from decide_eq_false_iff_not.mpr (not_le.mpr hlt)]
      · simp [appliesMaxCheck, hmx, h0, hlt,
          show decide (amt ≤ mx) = true from decide_eq_true (not_lt.mp hlt)]

/-- C3 (amended): for every rule and normalized amount, the source's
applicability test equals the spec predicate with zero bounds read as
absent: active AND (min absent-or-zero OR amount ≥ min) AND (max
absent-or-zero OR amount ≤ max). -/
theorem c3_applies_iff_amended (rule : ApprovalRule) (amt : ℚ) :
    applies_to_expense rule (some amt) = .ok (specAppliesAmended rule amt) := by
  by_cases hact : rule.is_active = false
  · simp [applies_to_expense, specAppliesAmended, hact]
  · have hact2 : rule.is_active = true := by
      revert hact; cases rule.is_active <;> simp
    rcases hmn : rule.min_amount with _ | m
    · simp [applies_to_expense, specAppliesAmended, hact, hact2, hmn, appliesMaxCheck_some_eq]
    · by_cases h0 : m = 0
      · simp [applies_to_expense, specAppliesAmended, hact, hact2, hmn, h0,
          appliesMaxCheck_some_eq]
      · by_cases hlt : amt < m
        · simp [applies_to_expense, specAppliesAmended, hact, hact2, hmn, h0, hlt,
            show decide (m ≤ amt) = false from decide_eq_false_iff_not.mpr (not_le.mpr hlt)]
        · simp [applies_to_expense, specAppliesAmended, hact, hact2, hmn, h0, hlt,
            appliesMaxCheck_some_eq,
            show decide (m ≤ amt) = true from decide_eq_true (not_lt.mp hlt)]

/-- C9: same-currency normalization is the identity with exchange rate
exactly 1 and performs zero external rate-lookup calls
(services.py:38-42, the early return before any `requests.get`). -/
theorem c9_same_currency_identity (amount : ℚ) (c : String)
    (rates : String → Option (List (String × ℚ))) :
    convert_currency amount c c rates = (.ok ⟨amount, 1⟩, 0) := by
  simp [convert_currency]

/-- C10: `applies_to_expense` is total only under the normalization
precondition — with the normalized amount unset, every active rule with a
present-and-non-zero min or max bound hits the `None < Decimal`
comparison (`TypeError`); with the amount set, no input can error. -/
theorem c10_applies_partiality :
    (∀ rule : ApprovalRule, rule.is_active = true →
        (pyTruthy rule.min_amount || pyTruthy rule.max_amount) = true →
        applies_to_expense rule none = .error ()) ∧
    (∀ (rule : ApprovalRule) (a : ℚ), ∃ b, applies_to_expense rule (some a) = .ok b) := by
  constructor
  · intro rule hact htr
    have hact2 : ¬ rule.is_active = false := by simp [hact]
    rcases hmn : rule.min_amount with _ | m
    · rcases hmx : rule.max_amount with _ | mx
      · simp [pyTruthy, hmn, hmx] at htr
      · have hmx0 : mx ≠ 0 := by
          simp only [pyTruthy, hmn, hmx, Bool.false_or, bne_iff_ne, ne_eq] at htr
          exact htr
        simp [applies_to_expense, hact2, hmn, appliesMaxCheck, hmx, hmx0]
    · by_cases h0 : m = 0
      · rcases hmx : rule.max_amount with _ | mx
        · simp [pyTruthy, hmn, h0, hmx] at htr
        · have hmx0 : mx ≠ 0 := by
            simp only [pyTruthy, hmn, hmx, h0, bne_self_eq_false, Bool.false_or,
              bne_iff_ne, ne_eq] at htr
            exact htr
          simp [applies_to_expense, hact2, hmn, h0, appliesMaxCheck, hmx, hmx0]
      · simp [applies_to_expense, hact2, hmn, h0]
  · exact applies_to_expense_some_isOk

/-- An active rule with a non-zero min bound, for the C10 witness. -/
def c10rule : ApprovalRule := ⟨.percentage, some 50, none, false, some 5, none, true, []⟩

/-- C10 witness: the theorem applied at a concrete rule. -/
theorem c10_applies_partiality_wit :
    applies_to_expense c10rule none = .error () ∧
      ∃ b, applies_to_expense c10rule (some 5) = .ok b :=
  ⟨c10_applies_partiality.1 c10rule rfl (by decide),
   c10_applies_partiality.2 c10rule 5⟩

/-- C7: when no rule applies, chain construction immediately approves
the expense, stamps `approved_at := now`, creates no approval records and
emits no notifications (services.py:154-159). -/
theorem c7_auto_approve (env : Env) (now : Nat) (st : ExpenseState)
    (h : get_applicable_rules env.rules env.amount = .ok []) :
    ∃ st2, create_approval_workflow env now st = .ok st2 ∧
      st2.status = .approved ∧ st2.approved_at = some now ∧
      st2.records = st.records ∧ st2.notifications = st.notifications := by
  refine ⟨{ st with status := .approved, approved_at := some now }, ?_, rfl, rfl, rfl, rfl⟩
  unfold create_approval_workflow
  split
  · rename_i e heq
    rw [h] at heq
    cases heq
  · rename_i rules heq
    rw [h] at heq
    injection heq with heq
    subst heq
    rfl

/-- Environment with no configured rules at all, for the C7 witness. -/
def env7 : Env := ⟨[], none, some 10, 0⟩

/-- A pending expense with no records yet, for the C7 witness. -/
def st7 : ExpenseState := ⟨.pending, none, none, [], []⟩

/-- C7 witness: the theorem applied at a concrete empty rule set. -/
theorem c7_auto_approve_wit :
    ∃ st2, create_approval_workflow env7 5 st7 = .ok st2 ∧
      st2.status = .approved ∧ st2.approved_at = some 5 ∧
      st2.records = st7.records ∧ st2.notifications = st7.notifications :=
  c7_auto_approve env7 5 st7 rfl

/-! C1: terminal statuses are not absorbing in the source. -/

/-- One active specific-approver rule (designated approver 2) with two
step approvers; no manager gate, no amount bounds. -/
def c1rule : ApprovalRule :=
  ⟨.specific, none, some 2, false, none, none, true, [⟨1, 1, true⟩, ⟨2, 2, true⟩]⟩

/-- Environment of the C1 run. -/
def c1env : Env := ⟨[c1rule], none, some 100, 0⟩

/-- The freshly submitted expense of the C1 run. -/
def c1st0 : ExpenseState := ⟨.pending, none, none, [], []⟩

/-- State after chain construction: two pending records, two
`approval_request` notifications. -/
def c1stW : ExpenseState :=
  ⟨.pending, none, none,
   [⟨1, some 1, .pending, none, none⟩, ⟨2, some 2, .pending, none, none⟩],
   [⟨1, "approval_request"⟩, ⟨2, "approval_request"⟩]⟩

/-- State after approver 1 rejects: the expense is `rejected`. -/
def c1stR : ExpenseState :=
  ⟨.rejected, none, none,
   [⟨1, some 1, .rejected, none, some 1⟩, ⟨2, some 2, .pending, none, none⟩],
   [⟨1, "approval_request"⟩, ⟨2, "approval_request"⟩, ⟨0, "expense_rejected"⟩]⟩

/-- State after approver 2 subsequently approves: the expense flips from
`rejected` to `approved`. -/
def c1stA : ExpenseState :=
  ⟨.approved, some 2, none,
   [⟨1, some 1, .rejected, none, some 1⟩, ⟨2, some 2, .approved, none, some 2⟩],
   [⟨1, "approval_request"⟩, ⟨2, "approval_request"⟩, ⟨0, "expense_rejected"⟩,
    ⟨0, "expense_approved"⟩]⟩

/-- C1: evaluated at the failing input, terminal statuses are not
absorbing. `check_expense_status` has no terminal-status guard
(services.py:222-263 never reads `expense.status`), and the approve
endpoint's pending check guards the record, not the expense
(views.py:173): after approver 1's rejection drives the expense to the
terminal status `rejected`, approver 2's still-pending record lets a
later approval run resolution again and flip the expense to `approved` —
contradicting the spec's terminal-state invariant. -/
theorem c1_terminal_not_absorbing :
    create_approval_workflow c1env 0 c1st0 = .ok c1stW ∧
      approve_action c1env 1 1 .rejected none c1stW = (.ok (), c1stR) ∧
      c1stR.status = .rejected ∧
      approve_action c1env 2 2 .approved none c1stR = (.ok (), c1stA) ∧
      c1stA.status = .approved := by
  refine ⟨by decide, by decide, rfl, by decide, rfl⟩

/-! C8: the expense status state machine. -/

/-- Environment with no configured rules, for C8. -/
def c8env : Env := ⟨[], none, some 50, 0⟩

/-- A freshly created expense (serializer default `status='draft'`). -/
def c8draft : ExpenseState := ⟨.draft, none, none, [], []⟩

/-- C8 (counterexample): `perform_create` (views.py:51-64) builds the
approval workflow while the expense still has its default `draft` status;
with no applicable rule the auto-approve branch moves it from `draft`
straight to `approved` in a single operation, never passing through
`pending`. -/
theorem c8_draft_to_approved_cex :
    c8draft.status = .draft ∧
      create_approval_workflow c8env 0 c8draft = .ok ⟨.approved, some 0, none, [], []⟩ ∧
      perform_create c8env 0 = .ok ⟨.approved, some 0, none, [], [⟨0, "expense_submitted"⟩]⟩ :=
  ⟨rfl, by decide, by decide⟩

theorem create_approval_workflow_status_cases (env : Env) (now : Nat)
    (st st2 : ExpenseState) (h : create_approval_workflow env now st = .ok st2) :
    st2.status = st.status ∨ st2.status = .approved := by
  unfold create_approval_workflow at h
  split at h
  · cases h
  · rename_i rules heq
    by_cases hemp : rules.isEmpty
    · rw [if_pos hemp] at h
      injection h with h
      subst h
      right
      rfl
    · rw [if_neg hemp] at h
      injection h with h
      subst h
      left
      exact buildRules_status _ _ _

/-- C8 (amended): creation, submission and cancellation respect the
machine `draft → pending → {approved | rejected}` with
`draft|pending → cancelled`, except that approval-chain construction
(run at creation while the expense is still `draft`, and after
submission) either leaves the status unchanged or sets it directly to
`approved`; in particular `draft → approved` without passing through
`pending` is reachable via the empty-rule auto-approve at creation. -/
theorem c8_state_machine_amended (env : Env) (now : Nat) (st : ExpenseState) :
    (st.status ≠ .draft → submit_action env now st = .error ()) ∧
    (∀ st2, submit_action env now st = .ok st2 →
      st.status = .draft ∧ (st2.status = .pending ∨ st2.status = .approved)) ∧
    (∀ st2, cancel_action st = .ok st2 →
      (st.status = .draft ∨ st.status = .pending) ∧ st2.status = .cancelled) ∧
    (st.status ≠ .draft → st.status ≠ .pending → cancel_action st = .error ()) ∧
    (∀ st2, create_approval_workflow env now st = .ok st2 →
      st2.status = st.status ∨ st2.status = .approved) := by
  refine ⟨?_, ?_, ?_, ?_, fun st2 h => create_approval_workflow_status_cases env now st st2 h⟩
  · intro hne
    have hb : (st.status == EStatus.draft) = false := by
      cases hst : st.status <;> simp_all
    simp [submit_action, hb]
  · intro st2 h
    unfold submit_action at h
    by_cases hdr : (st.status == EStatus.draft) = true
    · have hst : st.status = .draft := by
        cases hq : st.status <;> simp_all
      refine ⟨hst, ?_⟩
      rw [if_pos hdr] at h
      rcases create_approval_workflow_status_cases _ _ _ _ h with h2 | h2
      · left; exact h2
      · right; exact h2
    · rw [if_neg hdr] at h
      cases h
  · intro st2 h
    unfold cancel_action at h
    by_cases hc : (st.status == EStatus.draft || st.status == EStatus.pending) = true
    · rw [if_pos hc] at h
      injection h with h
      subst h
      refine ⟨?_, rfl⟩
      simpa using hc
    · rw [if_neg hc] at h
      cases h
  · intro h1 h2
    have hb : (st.status == EStatus.draft || st.status == EStatus.pending) = false := by
      cases hst : st.status <;> simp_all
    simp [cancel_action, hb]

/-- C8 witness: the amended theorem applied at a concrete pending
expense — submit is refused outside `draft`, and cancel from `pending`
yields `cancelled`. -/
theorem c8_state_machine_amended_wit :
    submit_action env7 0 st7 = .error () ∧
      ((st7.status = .draft ∨ st7.status = .pending) ∧
        (⟨.cancelled, none, none, [], []⟩ : ExpenseState).status = .cancelled) :=
  ⟨(c8_state_machine_amended env7 0 st7).1 (by decide),
   (c8_state_machine_amended env7 0 st7).2.2.1 _ (by decide)⟩

/-! C2: re-deciding a resolved vote. `process_approval` has two callers:
the REST endpoint (views.py:168-189), which refuses non-pending records,
and the frontend route (frontend_views.py:259-284), which does not. -/

theorem decidedState_records_set (env : Env) (now : Nat) (a : Nat) (d : Decision)
    (c : Option String) (st : ExpenseState) :
    ∀ r ∈ (decidedState env now a d c st).records, r.approver = a →
      r.status = d.toAStatus ∧ r.comments = c ∧ r.approved_at = some now := by
  intro r hr heq
  simp only [decidedState, List.mem_map] at hr
  obtain ⟨r0, hr0, rfl⟩ := hr
  by_cases hb : (r0.approver == a) = true
  · simp [hb]
  · exfalso
    rw [if_neg hb] at heq
    exact hb (by simp [heq])

theorem process_approval_ok (env : Env) (now : Nat) (a : Nat) (d : Decision)
    (c : Option String) (st st2 : ExpenseState)
    (h : check_expense_status env now (decidedState env now a d c st) = .ok st2) :
    process_approval env now a d c st = (.ok (), st2) := by
  simp only [process_approval]
  rw [h]

/-- The REST endpoint's guard, for contrast with the unguarded frontend
route: `ExpenseApprovalViewSet.approve` (views.py:173-177) fails with
`invalidState` on a non-pending record and returns the state untouched;
for a pending record (under the spec's well-formedness preconditions on
the configuration) it succeeds and the approver's record carries the
decided status, the comments and the decision timestamp. -/
theorem c2_decide_pending_guard (env : Env) (now : Nat) (a : Nat) (d : Decision)
    (c : Option String) (st : ExpenseState) (rec : ApprovalRecord)
    (hwf : WFEnv env)
    (hfind : st.records.find? (fun r => r.approver == a) = some rec) :
    (rec.status ≠ .pending → approve_action env now a d c st = (.error .invalidState, st)) ∧
    (rec.status = .pending → ∃ st2, approve_action env now a d c st = (.ok (), st2) ∧
      ∀ r ∈ st2.records, r.approver = a →
        r.status = d.toAStatus ∧ r.comments = c ∧ r.approved_at = some now) := by
  constructor
  · intro hne
    have hb : (rec.status == AStatus.pending) = false := by
      cases hrc : rec.status <;> simp_all
    unfold approve_action
    split
    · rename_i heq
      rw [hfind] at heq
      cases heq
    · rename_i rec2 heq
      rw [hfind] at heq
      injection heq with heq
      subst heq
      rw [if_neg (by simp [hb])]
  · intro hpend
    obtain ⟨st2, hchk, hrecs, hnots⟩ :=
      check_expense_status_isOk env now (decidedState env now a d c st) hwf
    refine ⟨st2, ?_, ?_⟩
    · unfold approve_action
      split
      · rename_i heq
        rw [hfind] at heq
        cases heq
      · rename_i rec2 heq
        rw [hfind] at heq
        injection heq with heq
        subst heq
        rw [if_pos (by simp [hpend]), process_approval_ok env now a d c st st2 hchk]
    · intro r hr
      rw [hrecs] at hr
      exact decidedState_records_set env now a d c st r hr

/-- Environment with no rules (trivially well-formed), for the C2
witness. -/
def c2env : Env := ⟨[], none, some 30, 0⟩

/-- A state with one pending record for approver 1. -/
def c2stP : ExpenseState := ⟨.pending, none, none, [⟨1, none, .pending, none, none⟩], []⟩

/-- A state whose record for approver 1 is already decided. -/
def c2stD : ExpenseState := ⟨.pending, none, none, [⟨1, none, .approved, none, some 3⟩], []⟩

/-- The endpoint-guard lemma applied at a decided and at a pending
record. -/
theorem c2_decide_pending_guard_wit :
    approve_action c2env 9 1 .rejected none c2stD = (.error .invalidState, c2stD) ∧
      ∃ st2, approve_action c2env 9 1 .approved (some "ok") c2stP = (.ok (), st2) ∧
        ∀ r ∈ st2.records, r.approver = 1 →
          r.status = Decision.approved.toAStatus ∧ r.comments = some "ok" ∧
          r.approved_at = some 9 :=
  ⟨(c2_decide_pending_guard c2env 9 1 .rejected none c2stD ⟨1, none, .approved, none, some 3⟩
      ⟨⟨30, rfl⟩, by simp [c2env]⟩ (by decide)).1 (by decide),
   (c2_decide_pending_guard c2env 9 1 .approved (some "ok") c2stP ⟨1, none, .pending, none, none⟩
      ⟨⟨30, rfl⟩, by simp [c2env]⟩ (by decide)).2 rfl⟩

/-- C2: evaluated at the failing input, a resolved vote can be re-decided.
`process_approval` (services.py:199-220, the function the claim names)
performs no status check — it unconditionally overwrites the record's
status, comments and decision timestamp — and the frontend route
`approve_expense` (frontend_views.py:269,272) calls it with no pending
guard, so the record decided `approved` at time 3 is re-decided to
`rejected` with success, new comments and a new timestamp instead of
failing with `InvalidState` and leaving the three fields unchanged. -/
theorem c2_reDecide_resolved_vote :
    (⟨1, none, .approved, none, some 3⟩ : ApprovalRecord).status ≠ .pending ∧
      approve_expense c2env 9 1 "reject" (some "changed") c2stD =
        (.ok (), ⟨.rejected, none, none, [⟨1, none, .rejected, some "changed", some 9⟩],
          [⟨0, "expense_rejected"⟩]⟩) ∧
      process_approval c2env 9 1 .rejected (some "changed") c2stD =
        (.ok (), ⟨.rejected, none, none, [⟨1, none, .rejected, some "changed", some 9⟩],
          [⟨0, "expense_rejected"⟩]⟩) :=
  ⟨by decide, by decide, by decide⟩

/-! C4: the percentage rule. -/

/-- Modelled from the spec: the hybrid-rule approval condition — "composes
percentage and specific-approver conditions (either satisfying condition
triggers approval)". The source's hybrid branch (services.py:255-258) is
`pass`; this predicate exists to compare the spec's words against it. -/
def hybridSpecCondition (rule : ApprovalRule) (st : ExpenseState) : Prop :=
  (∃ t, rule.percentage_threshold = some t ∧ 0 < st.records.length ∧
    (t : ℚ) ≤ (approvedCnt st : ℚ) / (st.records.length : ℚ) * 100) ∨
  (∃ a, rule.specific_approver = some a ∧
    ∃ r ∈ st.records, r.approver = a ∧ r.status = .approved)

/-- An active hybrid rule: threshold 1 %, designated approver 1. -/
def c5rule : ApprovalRule :=
  ⟨.hybrid, some 1, some 1, false, none, none, true, [⟨1, 1, true⟩, ⟨2, 2, true⟩]⟩

/-- Environment of the C5 run. -/
def env5 : Env := ⟨[c5rule], none, some 100, 0⟩

/-- A pending expense where approver 1 has approved (so both the
percentage and the specific conditions of the hybrid rule hold). -/
def c5st : ExpenseState :=
  ⟨.pending, none, none,
   [⟨1, some 1, .approved, none, some 1⟩, ⟨2, some 2, .pending, none, none⟩], []⟩

/-- C5 (counterexample): both hybrid sub-conditions are satisfied
(1/2 = 50 % ≥ 1 %, and designated approver 1 has approved), yet
resolution leaves the expense unchanged and still `pending` — the
source's hybrid branch is a `pass` no-op. -/
theorem c5_hybrid_cex :
    hybridSpecCondition c5rule c5st ∧
      check_expense_status env5 3 c5st = .ok c5st ∧ c5st.status = .pending := by
  refine ⟨Or.inr ⟨1, rfl, ⟨1, some 1, .approved, none, some 1⟩, ?_, rfl, rfl⟩, by decide, rfl⟩
  simp [c5st]

theorem firstTrigger_all_hybrid (st : ExpenseState) :
    ∀ rs : List ApprovalRule, (∀ r ∈ rs, r.rule_type = .hybrid) →
      firstTrigger st rs = .ok false
  | [], _ => rfl
  | r :: rest, hh => by
    have h1 : ruleTriggers st r = .ok false := by
      simp [ruleTriggers, hh r (List.mem_cons_self _ _)]
    have h2 := firstTrigger_all_hybrid st rest fun r2 hm => hh r2 (List.mem_cons_of_mem _ hm)
    simp [firstTrigger, h1, h2]

/-- C5 (amended): hybrid rules never trigger a transition to `approved` —
the hybrid branch of `check_expense_status` is a no-op, so when every
applicable rule is hybrid, resolution only applies the trailing
rejected-record check and otherwise leaves the state unchanged. -/
theorem c5_hybrid_amended (env : Env) (now : Nat) (st : ExpenseState)
    (rs : List ApprovalRule)
    (hl : get_applicable_rules env.rules env.amount = .ok rs)
    (hh : ∀ r ∈ rs, r.rule_type = .hybrid) :
    check_expense_status env now st =
      (if st.records.any (fun r => r.status == .rejected) then
        .ok { st with status := .rejected }
      else .ok st) := by
  rw [check_expense_status_spec env now st rs hl false (firstTrigger_all_hybrid st rs hh),
    if_neg Bool.false_ne_true]

/-- C5 witness: the amended theorem applied at the concrete hybrid
environment. -/
theorem c5_hybrid_amended_wit :
    check_expense_status env5 7 c5st =
      (if c5st.records.any (fun r => r.status == .rejected) then
        .ok { c5st with status := .rejected }
      else .ok c5st) :=
  c5_hybrid_amended env5 7 c5st [c5rule] rfl
    (fun r hr => by rw [List.mem_singleton.mp hr]; rfl)

/-! C6: idempotence of chain construction. -/

/-- C6: re-invoking `create_approval_workflow` on the state it produced
succeeds and yields exactly the same approval records and exactly the
same notifications — `get_or_create` keyed on `(expense, approver)`
(services.py:165-197) makes the second pass a no-op, so no approver is
notified twice. -/
theorem c6_workflow_idempotent (env : Env) (n1 n2 : Nat) (st st1 : ExpenseState)
    (h : create_approval_workflow env n1 st = .ok st1) :
    ∃ st2, create_approval_workflow env n2 st1 = .ok st2 ∧
      st2.records = st1.records ∧ st2.notifications = st1.notifications := by
  unfold create_approval_workflow at h
  split at h
  · cases h
  · rename_i rules heq
    unfold create_approval_workflow
    split
    · rename_i e2 heq2
      rw [heq] at heq2
      cases heq2
    · rename_i rules2 heq2
      rw [heq] at heq2
      injection heq2 with heq2
      subst heq2
      by_cases hemp : rules.isEmpty
      · rw [if_pos hemp] at h
        injection h with h
        subst h
        exact ⟨_, if_pos hemp, rfl, rfl⟩
      · rw [if_neg hemp] at h
        injection h with h
        subst h
        exact ⟨_, if_neg hemp, by rw [buildRules_fix], by rw [buildRules_fix]⟩

/-- An active specific rule with a manager gate and one step approver,
for the C6 witness. -/
def c6rule : ApprovalRule := ⟨.specific, none, some 2, true, none, none, true, [⟨1, 1, true⟩]⟩

/-- Environment of the C6 witness: owner's manager is user 7. -/
def env6 : Env := ⟨[c6rule], some 7, some 20, 0⟩

/-- The submitted expense before chain construction. -/
def st6 : ExpenseState := ⟨.pending, none, none, [], []⟩

/-- The state the first chain construction produces: a record for the
manager and one for the step approver, with one notification each. -/
def st6W : ExpenseState :=
  ⟨.pending, none, none,
   [⟨7, none, .pending, none, none⟩, ⟨1, some 1, .pending, none, none⟩],
   [⟨7, "approval_request"⟩, ⟨1, "approval_request"⟩]⟩

/-- C6 witness: the theorem applied to a concrete first run. -/
theorem c6_workflow_idempotent_wit :
    ∃ st2, create_approval_workflow env6 1 st6W = .ok st2 ∧
      st2.records = st6W.records ∧ st2.notifications = st6W.notifications :=
  c6_workflow_idempotent env6 0 1 st6 st6W (by decide)

end ExpenseApp
